import Mathlib

/-!
# Verification of the video-rs pipeline coordination layer

A shallow embedding, in Lean 4, of the parts of the `video-rs` repository that
the specification's claims are about:

* H.264 parameter-set extraction (`src/extradata.rs`)
* the time algebra (`src/time.rs`)
* dimension fitting (`src/resize.rs`)
* RTP/RTCP buffer classification (`src/rtp.rs`)
* the encoder state machine: header/trailer flags, key-frame forcing, flushing
  (`src/encode.rs`)
* the muxer trailer behaviour (`src/mux.rs`)
* the decoder teardown drain loop (`src/decode.rs`)

Rust bytes are modelled as `Nat` (every input of interest is a list of values
below 256; bit-operations such as `& 0x1f` are translated as the equivalent
`% 32`, which agrees on all naturals).  Fallible Rust functions return a
result type with an explicit constructor for a Rust panic, so that
out-of-bounds slice indexing is observable in the model.  Loops are expressed
as structurally recursive functions on an explicit iteration count matching
the source loop's bound, so that all definitions compute by `rfl`/`decide`.
-/

set_option autoImplicit false

namespace VideoRs

/-- Error type of the library (`src/error.rs`), restricted to the variants that
decide the claims under verification. -/
inductive Err where
  | readExhausted
  | invalidFrameFormat
  | invalidExtraData
  | missingCodecParameters
  | unsupportedCodecParameterSets
  | backendError
  deriving DecidableEq, Repr

/-- Result of H.264 parameter-set extraction (`src/extradata.rs`).  `ok` carries
the SPS bytes and the list of PPS byte strings.  `panics` models a Rust panic
(an out-of-bounds slice index); it is distinct from returning an error. -/
inductive ExtractResult where
  | ok (sps : List Nat) (pps : List (List Nat))
  | err (e : Err)
  | panics
  deriving DecidableEq, Repr

/-- Inner loop of `find_avc_start_code`: for `i` in `[i0, i0 + steps)`, test for
a three-byte start code `00 00 01` first, then a four-byte start code
`00 00 00 01` (the latter guarded by `i + 4 <= part.len()`).  The source loop
runs `i` over `0..(part.len() - 3)`, so `steps` is exactly the number of
remaining iterations. -/
def findLoop (part : List Nat) (i : Nat) : Nat → Option (Nat × Nat)
  | 0 => none
  | steps + 1 =>
    if (part.drop i).take 3 = [0x00, 0x00, 0x01] then some (i, i + 3)
    else if i + 4 ≤ part.length ∧ (part.drop i).take 4 = [0x00, 0x00, 0x00, 0x01] then
      some (i, i + 4)
    else findLoop part (i + 1) steps

/-- `find_avc_start_code(bytes, offset)` (`src/extradata.rs`): scan
`bytes[offset..]` for a 3- or 4-byte AVC start code; return the absolute
`(start, end)` indices of the first one found, `None` otherwise.  The scan loop
range `0..(part.len() - 3)` never tests the final two possible positions of a
trailing three-byte code, exactly as in the source. -/
def findAvcStartCode (bytes : List Nat) (offset : Nat) : Option (Nat × Nat) :=
  let part := bytes.drop offset
  if 3 ≤ part.length then
    (findLoop part 0 (part.length - 3)).map (fun p => (offset + p.1, offset + p.2))
  else none

/-- The sequence of NAL units visited by the `while let` loop of
`extract_parameter_sets_from_extradata_h264_avc_annexb`, starting with the unit
that begins at byte `index`.  Each unit extends to the start of the next start
code (or the end of the buffer).  `fuel` bounds the recursion; the loop
advances `index` strictly, so `bytes.length + 1` fuel always suffices. -/
def scanGo (bytes : List Nat) (index : Nat) : Nat → List (List Nat)
  | 0 => []
  | fuel + 1 =>
    match findAvcStartCode bytes index with
    | some p => ((bytes.drop index).take (p.1 - index)) :: scanGo bytes p.2 fuel
    | none => [(bytes.drop index).take (bytes.length - index)]

/-- All NAL units delimited by start codes in `bytes`, in scan order (bytes
before the first start code are skipped, as in the source). -/
def scanUnits (bytes : List Nat) : List (List Nat) :=
  match findAvcStartCode bytes 0 with
  | some p => scanGo bytes p.2 (bytes.length + 1)
  | none => []

/-- Whether a NAL unit's type nibble (`nal[0] & 0x1f`) says SPS (7). -/
def nalIsSps (u : List Nat) : Bool :=
  match u with
  | b :: _ => b % 32 == 0x07
  | [] => false

/-- Whether a NAL unit's type nibble (`nal[0] & 0x1f`) says PPS (8). -/
def nalIsPps (u : List Nat) : Bool :=
  match u with
  | b :: _ => b % 32 == 0x08
  | [] => false

/-- Body of the `while let Some(index) = index_current` loop of
`extract_parameter_sets_from_extradata_h264_avc_annexb`, carrying the running
`sps` option and `pps` accumulator.  Reading `nal[0]` of an empty unit (two
adjacent start codes) is a Rust panic.  On SPS the option is overwritten; on
PPS the unit is appended.  When the loop ends, `Ok((sps, pps))` is returned if
an SPS was seen, else `Err(InvalidExtraData)`. -/
def annexbGo (bytes : List Nat) (index : Nat) (sps : Option (List Nat))
    (pps : List (List Nat)) : Nat → ExtractResult
  | 0 => .panics
  | fuel + 1 =>
    let stepRes := findAvcStartCode bytes index
    let endIdx := match stepRes with | some p => p.1 | none => bytes.length
    match (bytes.drop index).take (endIdx - index) with
    | [] => .panics
    | b :: rest =>
      let nal := b :: rest
      let nalType := b % 32
      let sps' := if nalType = 0x07 then some nal else sps
      let pps' := if nalType = 0x08 then pps ++ [nal] else pps
      match stepRes with
      | some p => annexbGo bytes p.2 sps' pps' fuel
      | none =>
        match sps' with
        | some s => .ok s pps'
        | none => .err .invalidExtraData

/-- `extract_parameter_sets_from_extradata_h264_avc_annexb` (`src/extradata.rs`):
find the first start code, then walk the start-code-delimited units. -/
def extractAnnexb (bytes : List Nat) : ExtractResult :=
  match findAvcStartCode bytes 0 with
  | some p => annexbGo bytes p.2 none [] (bytes.length + 1)
  | none => .err .invalidExtraData

/-- The `for _ in 0..pps_num` loop of
`extract_parameter_sets_from_extradata_h264_avcc`: each round reads a two-byte
big-endian PPS length at `pps_p`, checks it against the remaining buffer
(returning `InvalidExtraData` when short), and collects the PPS bytes.  The
slice expression `pps_array[pps_p..]` would panic if `pps_p` exceeded the
buffer length (it never does, but the model keeps the check faithful). -/
def avccLoop (ppsArray : List Nat) (sps : List Nat) (ppsP : Nat)
    (acc : List (List Nat)) : Nat → ExtractResult
  | 0 => .ok sps acc
  | n + 1 =>
    if ppsArray.length < ppsP then .panics
    else if (ppsArray.drop ppsP).length < 2 then .err .invalidExtraData
    else
      let ppsSize := 256 * ppsArray.getD ppsP 0 + ppsArray.getD (ppsP + 1) 0
      if (ppsArray.drop (ppsP + 2)).length < ppsSize then .err .invalidExtraData
      else
        avccLoop ppsArray sps (ppsP + 2 + ppsSize)
          (acc ++ [(ppsArray.drop (ppsP + 2)).take ppsSize]) n

/-- `extract_parameter_sets_from_extradata_h264_avcc` (`src/extradata.rs`).
`sps_size` is read big-endian from bytes 6 and 7; the SPS slice is
`bytes[8..(8 + sps_size)]` with `8 + sps_size` computed in `u16` arithmetic
(wrapping, as in a release build; a debug build panics on the overflow, and
every wrapped value ends below 8, so both builds panic on exactly the same
inputs).  The slice panics when the end index lies below 8 or past the end of
the buffer: the source has no bounds check for the SPS length. -/
def extractAvcc (bytes : List Nat) : ExtractResult :=
  if 8 < bytes.length then
    let spsSize := 256 * bytes.getD 6 0 + bytes.getD 7 0
    let endIdx := (8 + spsSize) % 65536
    if endIdx < 8 ∨ bytes.length < endIdx then .panics
    else
      let sps := (bytes.drop 8).take (endIdx - 8)
      let ppsArray := bytes.drop endIdx
      if 1 < ppsArray.length then
        let ppsNum := ppsArray.getD 0 0
        avccLoop (ppsArray.drop 1) sps 0 [] ppsNum
      else .err .invalidExtraData
  else .err .invalidExtraData

/-- `extract_parameter_sets_h264` (`src/extradata.rs`): dispatch on the first
byte — `0x00` means Annex B, `0x01` means AVCC, anything else (or an empty
buffer) is `InvalidExtraData`. -/
def extractParameterSetsH264 (bytes : List Nat) : ExtractResult :=
  match bytes with
  | [] => .err .invalidExtraData
  | b :: _ =>
    if b = 0x00 then extractAnnexb bytes
    else if b = 0x01 then extractAvcc bytes
    else .err .invalidExtraData

/-- The final `if let Some(sps) = sps` step of the Annex B extraction. -/
def annexbFinalize : Option (List Nat) → List (List Nat) → ExtractResult
  | some s, pps => .ok s pps
  | none, _ => .err .invalidExtraData


/-! ## Time algebra (`src/time.rs`) -/

/-- An `AvRational` time base: numerator and denominator of seconds per tick. -/
structure Rational where
  num : Int
  den : Int
  deriving DecidableEq, Repr

/-- Round-toward-nearest division with ties away from zero, for a positive
divisor `d` (the only case the claims exercise).

Modelled from the spec: the rescale rounding is performed by the external codec
engine (`av_rescale_q` with `AV_ROUND_NEAR_INF`, reached through the `Rescale`
trait in `src/time.rs`), not by code of this repository; §4.1 fixes its
contract as exact rational arithmetic "rounded toward nearest". -/
def roundNearInf (n d : Int) : Int :=
  if 0 ≤ n then (2 * n + d) / (2 * d)
  else -((2 * (-n) + d) / (2 * d))

/-- Modelled from the spec: rescale a tick count from time base `src` into time
base `dst`: `ticks * src.num * dst.den / (src.den * dst.num)`, rounded toward
nearest (§4.1). -/
def rescaleTicks (t : Int) (src dst : Rational) : Int :=
  roundNearInf (t * src.num * dst.den) (src.den * dst.num)

/-- `Time` (`src/time.rs`): an optional signed tick count plus a rational time
base. -/
structure Time where
  time : Option Int
  timeBase : Rational
  deriving DecidableEq, Repr

/-- `Time::new`. -/
def Time.new (t : Option Int) (tb : Rational) : Time := ⟨t, tb⟩

/-- `Time::from_units`: `time` ticks, each worth `1 / base_den` seconds. -/
def Time.fromUnits (t : Nat) (baseDen : Nat) : Time :=
  ⟨some (t : Int), ⟨1, (baseDen : Int)⟩⟩

/-- `Time::has_value`. -/
def Time.hasValue (t : Time) : Bool := t.time.isSome

/-- `Time::as_secs`: tick count times `num/den` in float arithmetic when a tick
count is present, the literal `0.0` otherwise.  (The source uses `f32` here and
`f64` in `as_secs_f64`; Lean's `Float` is used for both.  The claims under
verification only evaluate the `None` branch, which performs no float
arithmetic at all.) -/
def Time.asSecs (t : Time) : Float :=
  match t.time with
  | some v => Float.ofInt v * (Float.ofInt t.timeBase.num / Float.ofInt t.timeBase.den)
  | none => 0.0

/-- `Time::as_secs_f64`: same computation in `f64`. -/
def Time.asSecsF64 (t : Time) : Float :=
  match t.time with
  | some v => Float.ofInt v * (Float.ofInt t.timeBase.num / Float.ofInt t.timeBase.den)
  | none => 0.0

/-- `From<Time> for Duration` is `Duration::from_secs_f64(t.as_secs_f64())`.
The wall-clock duration is represented here by the `f64` seconds value handed
to `Duration::from_secs_f64`; that constructor maps the argument `0.0` (and
only tiny arguments) to `Duration::ZERO`, so the zero duration is represented
by `0.0`. -/
def Time.toDurationSecs (t : Time) : Float := t.asSecsF64

/-- `Aligned` (`src/time.rs`): two tick counts expressed in one time base. -/
structure Aligned where
  lhs : Option Int
  rhs : Option Int
  timeBase : Rational
  deriving DecidableEq, Repr

/-- `Time::aligned_with`: keep the left-hand tick count as is and rescale the
right-hand tick count into the left-hand time base. -/
def Time.alignedWith (t rhs : Time) : Aligned :=
  ⟨t.time, rhs.time.map (fun v => rescaleTicks v rhs.timeBase t.timeBase), t.timeBase⟩

/-- `Aligned::apply`: apply the binary operation when both tick counts are
present, otherwise produce an absent-valued `Time` in the shared time base. -/
def Aligned.apply (a : Aligned) (f : Int → Int → Int) : Time :=
  match a.lhs, a.rhs with
  | some l, some r => ⟨some (f l r), a.timeBase⟩
  | _, _ => ⟨none, a.timeBase⟩

/-- `Aligned::add`. -/
def Aligned.add (a : Aligned) : Time := a.apply (· + ·)

/-- `Aligned::subtract`. -/
def Aligned.subtract (a : Aligned) : Time := a.apply (· - ·)

/-! ## Dimension fitting (`src/resize.rs`)

`calculate_fit_dims` / `calculate_fit_dims_even` compute with `f32`.  The three
float operations are abstracted into a structure: `fdiv`/`fmul` stand for
binary32 division and multiplication acting on the exactly-represented operand
values, `fround` for `.round()` (nearest integer, ties away from zero)
followed by the cast `as u32`, and `ftrunc` for a bare `as u32` cast.
`FloatOps.Accurate` records the accuracy facts the proofs rely on; they hold
of IEEE-754 binary32 on the value range the claims use (all quantities at most
1000, so every operation is correctly rounded with relative error at most
`2^-24` and `.round()` lands within one half of its argument), and they also
hold of exact rational arithmetic, which serves as the witness instance.
`f32::min` on non-NaN operands is the mathematical minimum, so `.min` is
translated as `min` on `ℚ` directly (a NaN can only arise from `0.0 / 0.0`,
and inside the loop the divided numerators `w_max`, `h_max` are positive).
A division by zero (`w = 0` or `h = 0`) yields `+∞` in IEEE; the model leaves
`fdiv` of a positive number by zero unconstrained except for nonnegativity,
which suffices because the corresponding scaled output dimension is then
`0 · f = 0` and the loop gives up. -/

/-- Relative error bound of a correctly rounded binary32 operation: `2^-24`. -/
def feps : ℚ := 1 / 16777216

/-- Abstract binary32 arithmetic used by the resize computations. -/
structure FloatOps where
  fdiv : ℚ → ℚ → ℚ
  fmul : ℚ → ℚ → ℚ
  fround : ℚ → ℕ
  ftrunc : ℚ → ℕ

/-- Accuracy facts about the abstracted float operations, valid for IEEE-754
binary32 on the input ranges at hand and for exact rational arithmetic. -/
structure FloatOps.Accurate (ops : FloatOps) : Prop where
  div_nonneg : ∀ a b : ℚ, 0 < a → 0 ≤ b → 0 ≤ ops.fdiv a b
  div_le : ∀ a b : ℚ, 0 < a → 0 < b → ops.fdiv a b ≤ a / b * (1 + feps)
  mul_le : ∀ a b : ℚ, 0 ≤ a → 0 ≤ b → ops.fmul a b ≤ a * b * (1 + feps)
  mul_ge : ∀ a b : ℚ, 0 ≤ a → 0 ≤ b → a * b * (1 - feps) ≤ ops.fmul a b
  round_le : ∀ x : ℚ, 0 ≤ x → (ops.fround x : ℚ) ≤ x + 1 / 2
  round_ge : ∀ x : ℚ, 0 ≤ x → x - 1 / 2 ≤ (ops.fround x : ℚ)

/-- `let f = wf.min(hf).min(1.0)` of `calculate_fit_dims_even`: the scale
factor for source dimensions `(w, h)` and current bound `(wMax, hMax)`. -/
def fitScale (ops : FloatOps) (w h wMax hMax : ℕ) : ℚ :=
  min (min (ops.fdiv (wMax : ℚ) (w : ℚ)) (ops.fdiv (hMax : ℚ) (h : ℚ))) 1

/-- `let out_w = (w as f32 * f).round() as u32` of `calculate_fit_dims_even`. -/
def fitOutW (ops : FloatOps) (w h wMax hMax : ℕ) : ℕ :=
  ops.fround (ops.fmul (w : ℚ) (fitScale ops w h wMax hMax))

/-- `let out_h = (h as f32 * f).round() as u32` of `calculate_fit_dims_even`. -/
def fitOutH (ops : FloatOps) (w h wMax hMax : ℕ) : ℕ :=
  ops.fround (ops.fmul (h : ℚ) (fitScale ops w h wMax hMax))

/-- The `while w_max > 0 && h_max > 0` loop of `calculate_fit_dims_even`
(`src/resize.rs`): return the rounded scaled dimensions when both are positive
and even; shrink the bound by one pixel on the tighter axis (`wf < hf` picks
the width) when they are positive but not both even; give up with `None` when
either rounds to zero.  Each iteration decreases `wMax + hMax` by one, so the
fuel `wMax + hMax + 1` supplied by `calculateFitDimsEven` always suffices; the
properties proved below hold for every fuel value. -/
def fitEvenLoop (ops : FloatOps) (w h : ℕ) : ℕ → ℕ → ℕ → Option (ℕ × ℕ)
  | _, _, 0 => none
  | wMax, hMax, fuel + 1 =>
    if 0 < wMax ∧ 0 < hMax then
      if 0 < fitOutW ops w h wMax hMax ∧ 0 < fitOutH ops w h wMax hMax then
        if fitOutW ops w h wMax hMax % 2 = 0 ∧ fitOutH ops w h wMax hMax % 2 = 0 then
          some (fitOutW ops w h wMax hMax, fitOutH ops w h wMax hMax)
        else if ops.fdiv (wMax : ℚ) (w : ℚ) < ops.fdiv (hMax : ℚ) (h : ℚ) then
          fitEvenLoop ops w h (wMax - 1) hMax fuel
        else fitEvenLoop ops w h wMax (hMax - 1) fuel
      else none
    else none

/-- `calculate_fit_dims_even` (`src/resize.rs`). -/
def calculateFitDimsEven (ops : FloatOps) (dims fitDims : ℕ × ℕ) : Option (ℕ × ℕ) :=
  fitEvenLoop ops dims.1 dims.2 fitDims.1 fitDims.2 (fitDims.1 + fitDims.2 + 1)

/-- `calculate_fit_dims` (`src/resize.rs`): pass the source through when it
already fits, otherwise scale by `min(w_max/w, h_max/h)` and truncate. -/
def calculateFitDims (ops : FloatOps) (dims fitDims : ℕ × ℕ) : Option (ℕ × ℕ) :=
  if dims.1 ≤ fitDims.1 ∧ dims.2 ≤ fitDims.2 then some dims
  else
    let f := min (ops.fdiv (fitDims.1 : ℚ) (dims.1 : ℚ)) (ops.fdiv (fitDims.2 : ℚ) (dims.2 : ℚ))
    let wOut := ops.ftrunc (ops.fmul (dims.1 : ℚ) f)
    let hOut := ops.ftrunc (ops.fmul (dims.2 : ℚ) f)
    if 0 < wOut ∧ 0 < hOut then some (wOut, hOut) else none

/-- The resize strategies (`src/resize.rs`). -/
inductive Resize where
  | exact (w h : ℕ)
  | fit (w h : ℕ)
  | fitEven (w h : ℕ)
  deriving DecidableEq, Repr

/-- `Resize::compute_for` (`src/resize.rs`). -/
def Resize.computeFor (ops : FloatOps) (r : Resize) (dims : ℕ × ℕ) : Option (ℕ × ℕ) :=
  match r with
  | .exact w h => some (w, h)
  | .fit w h => calculateFitDims ops dims (w, h)
  | .fitEven w h => calculateFitDimsEven ops dims (w, h)

/-- Exact rational arithmetic packaged as float operations; it satisfies the
accuracy hypotheses trivially and serves as the concrete witness instance. -/
def exactOps : FloatOps where
  fdiv := fun a b => a / b
  fmul := fun a b => a * b
  fround := fun x => (round x).toNat
  ftrunc := fun x => x.floor.toNat

/-- The dimension candidates of the spec's test grid. -/
def gridDims : List ℕ := [0, 1, 2, 3, 8, 111, 256, 1000]

/-! ## RTP buffer classification (`src/rtp.rs`) -/

/-- `RtpBuf` (`src/rtp.rs`): an output buffer classified as plain RTP payload
or as an RTCP packet. -/
inductive RtpBuf where
  | rtp (buf : List Nat)
  | rtcp (buf : List Nat)
  deriving DecidableEq, Repr

/-- `impl From<Buf> for RtpBuf` (`src/rtp.rs`): a buffer of at least two bytes
whose byte at offset 1 equals `RTCP_SR_MARKER` (200) is RTCP; every other
buffer — including any buffer shorter than two bytes — is RTP. -/
def rtpBufOfBuf (buf : List Nat) : RtpBuf :=
  if 2 ≤ buf.length then
    if buf.getD 1 0 = 200 then .rtcp buf else .rtp buf
  else .rtp buf

/-- Whether a classified buffer is RTCP. -/
def RtpBuf.isRtcp : RtpBuf → Bool
  | .rtcp _ => true
  | .rtp _ => false

/-! ## Encoder state machine (`src/encode.rs`) -/

/-- `FRAME_PIXEL_FORMAT` (`src/frame.rs`): `AvPixel::RGB24`, identified here
by the codec engine's enumeration value 2. -/
def FRAME_PIXEL_FORMAT : Nat := 2

/-- `Encoder::KEY_FRAME_INTERVAL` (`src/encode.rs`): 12. -/
def KEY_FRAME_INTERVAL : Nat := 12

/-- `MAX_DRAIN_ITERATIONS` (`src/encode.rs` / `src/decode.rs`): 100. -/
def MAX_DRAIN_ITERATIONS : Nat := 100

/-- A raw frame as the encoder's validation observes it: width, height, pixel
format (`RawFrame` is the codec engine's frame type). -/
structure RawFrame where
  width : Nat
  height : Nat
  format : Nat
  deriving DecidableEq, Repr

/-- The mutable state of `Encoder` (`src/encode.rs`) that the claims observe,
plus ghost counters for the writer side effects: `headerWrites` counts
`writer.write_header()` calls, `trailerWrites` counts
`writer.write_trailer()` calls, `packetWrites` counts packets written to the
output stream. -/
structure EncoderSt where
  scalerWidth : Nat
  scalerHeight : Nat
  frameCount : Nat
  haveWrittenHeader : Bool
  haveWrittenTrailer : Bool
  headerWrites : Nat
  trailerWrites : Nat
  packetWrites : Nat
  deriving DecidableEq, Repr

/-- One response of the external codec engine to `receive_packet`: a packet, a
"try again" (`EAGAIN`, which `encoder_receive_packet` maps to `Ok(None)`), or
an error. -/
inductive EngineResp where
  | pkt
  | eagain
  | err
  deriving DecidableEq, Repr

/-- `Encoder::write` (`src/encode.rs`): set stream index, clear the position,
rescale timestamps into the stream time base, write (interleaved or not), and
increment `frame_count`. -/
def encWrite (st : EncoderSt) : EncoderSt :=
  { st with frameCount := st.frameCount + 1, packetWrites := st.packetWrites + 1 }

deriving instance DecidableEq for Except

/-- Outcome of one `encode`/`encode_raw` call: the state after the call, the
returned result, and whether the fed frame was marked as a forced key (I)
frame (`none` when the frame was rejected before being processed). -/
structure EncodeOutcome where
  state : EncoderSt
  result : Except Err Unit
  keyed : Option Bool
  deriving DecidableEq, Repr

/-- `Encoder::encode_raw` (`src/encode.rs`): validate the frame's
width/height/pixel-format against the negotiated settings first
(`InvalidFrameFormat` on mismatch, before anything else happens); write the
container header lazily on first use; reformat through the scaler; mark the
frame as a forced key (I) frame exactly when `frame_count` is a multiple of
`KEY_FRAME_INTERVAL`; send it to the engine and make one
`encoder_receive_packet` attempt — a produced packet is written via
`Encoder::write` (incrementing `frame_count`), `EAGAIN` is ignored, an engine
error propagates.  The engine's response is the `resp` parameter; backend
failures of `write_header`, the scaler and `send_frame` are not modelled (no
claim concerns them). -/
def encodeRaw (st : EncoderSt) (frame : RawFrame) (resp : EngineResp) : EncodeOutcome :=
  if frame.width ≠ st.scalerWidth ∨ frame.height ≠ st.scalerHeight ∨
      frame.format ≠ FRAME_PIXEL_FORMAT then
    ⟨st, .error .invalidFrameFormat, none⟩
  else
    let st1 :=
      if ¬st.haveWrittenHeader then
        { st with haveWrittenHeader := true, headerWrites := st.headerWrites + 1 }
      else st
    let keyed := st1.frameCount % KEY_FRAME_INTERVAL == 0
    match resp with
    | .pkt => ⟨encWrite st1, .ok (), some keyed⟩
    | .eagain => ⟨st1, .ok (), some keyed⟩
    | .err => ⟨st1, .error .backendError, some keyed⟩

/-- `Encoder::encode` (`src/encode.rs`): validate the `(height, width,
channels)` shape of the `ndarray` frame against the negotiated settings
(`InvalidFrameFormat` on mismatch), convert it to an RGB24 raw frame of the
same dimensions, stamp the rescaled source timestamp, and delegate to
`encode_raw`. -/
def encode (st : EncoderSt) (height width channels : Nat) (resp : EngineResp) : EncodeOutcome :=
  if height ≠ st.scalerHeight ∨ width ≠ st.scalerWidth ∨ channels ≠ 3 then
    ⟨st, .error .invalidFrameFormat, none⟩
  else
    encodeRaw st ⟨width, height, FRAME_PIXEL_FORMAT⟩ resp

/-- The `for _ in 0..MAX_DRAIN_ITERATIONS` drain loop of `Encoder::flush`
(`src/encode.rs`): attempt `encoder_receive_packet` up to the iteration
budget; a packet is written, an `EAGAIN` keeps looping, an engine error breaks
out of the loop without being propagated.  `i` is the next attempt index,
`remaining` the remaining budget; the result carries the updated state and the
total number of `encoder_receive_packet` invocations performed.  (Write
failures are not modelled; no claim concerns them.) -/
def flushLoop (resp : Nat → EngineResp) (st : EncoderSt) (i : Nat) : Nat → EncoderSt × Nat
  | 0 => (st, i)
  | r + 1 =>
    match resp i with
    | .pkt => flushLoop resp (encWrite st) (i + 1) r
    | .eagain => flushLoop resp st (i + 1) r
    | .err => (st, i + 1)

/-- `Encoder::flush` (`src/encode.rs`): `send_eof` to the engine (success is
the `eofOk` parameter; its failure propagates), then run the bounded drain
loop. -/
def encFlush (eofOk : Bool) (resp : Nat → EngineResp) (st : EncoderSt) :
    Except Err (EncoderSt × Nat) :=
  if eofOk then .ok (flushLoop resp st 0 MAX_DRAIN_ITERATIONS)
  else .error .backendError

/-- `Encoder::finish` (`src/encode.rs`): when a header has been written and no
trailer yet, set `have_written_trailer`, flush, and write the trailer;
otherwise do nothing and return `Ok`.  The flag mutation precedes the flush
(`self.have_written_trailer = true;` before `self.flush()?;`), so it survives
a flush failure, exactly as in the source. -/
def encFinish (eofOk : Bool) (resp : Nat → EngineResp) (st : EncoderSt) :
    EncoderSt × Except Err Unit :=
  if st.haveWrittenHeader ∧ ¬st.haveWrittenTrailer then
    let st1 := { st with haveWrittenTrailer := true }
    match encFlush eofOk resp st1 with
    | .ok (st2, _) => ({ st2 with trailerWrites := st2.trailerWrites + 1 }, .ok ())
    | .error e => (st1, .error e)
  else (st, .ok ())

/-! ## Muxer (`src/mux.rs`) -/

/-- The state of `Muxer` (`src/mux.rs`) relevant to `finish`, with a ghost
counter for `writer.write_trailer()` invocations.  The source `Muxer` tracks
only a `have_written_header` flag; it has no written-trailer flag. -/
structure MuxerSt where
  haveWrittenHeader : Bool
  trailerWrites : Nat
  deriving DecidableEq, Repr

/-- `Muxer::finish` (`src/mux.rs`): unconditionally delegate to
`writer.write_trailer()`, which (per `src/io.rs`) calls straight into the
container backend with no idempotency guard. -/
def muxFinish (st : MuxerSt) : MuxerSt × Except Err Unit :=
  ({ st with trailerWrites := st.trailerWrites + 1 }, .ok ())

/-! ## Decoder teardown (`src/decode.rs`) -/

/-- One response of the codec engine to `decoder_receive_frame`: a frame, "no
frame yet" (`EAGAIN`, mapped to `Ok(None)`), or an error. -/
inductive DecodeResp where
  | frame
  | empty
  | err
  deriving DecidableEq, Repr

/-- The drain loop of `impl Drop for DecoderSplit` (`src/decode.rs`): call
`decoder_receive_frame` up to `MAX_DRAIN_ITERATIONS` times, breaking out as
soon as a call returns an error; the error goes nowhere (`drop` has no return
channel).  Returns the number of `decoder_receive_frame` invocations. -/
def dropDrainLoop (resp : Nat → DecodeResp) (i : Nat) : Nat → Nat
  | 0 => i
  | r + 1 => if resp i = .err then i + 1 else dropDrainLoop resp (i + 1) r

/-- `Drop for DecoderSplit` (`src/decode.rs`): the number of drain attempts
performed during teardown; zero when `send_eof` itself fails, in which case
the whole loop is skipped. -/
def decoderDropAttempts (eofOk : Bool) (resp : Nat → DecodeResp) : Nat :=
  if eofOk then dropDrainLoop resp 0 MAX_DRAIN_ITERATIONS else 0

/-! ## Characterization of the Annex B scan -/

/-- Positions returned by `findLoop` lie in the scanned range and the end
index stays inside the buffer. -/
lemma findLoop_spec :
    ∀ steps (part : List Nat) (i s e : Nat), findLoop part i steps = some (s, e) →
      i ≤ s ∧ s + 1 ≤ i + steps ∧ (e = s + 3 ∨ (e = s + 4 ∧ e ≤ part.length)) := by
  intro steps
  induction steps with
  | zero => intro part i s e hfind; simp [findLoop] at hfind
  | succ n ih =>
    intro part i s e hfind
    simp only [findLoop] at hfind
    by_cases h3 : (part.drop i).take 3 = [0x00, 0x00, 0x01]
    · rw [if_pos h3] at hfind
      obtain ⟨hs, he⟩ := Prod.mk.inj (Option.some.inj hfind)
      omega
    · rw [if_neg h3] at hfind
      by_cases h4 : i + 4 ≤ part.length ∧ (part.drop i).take 4 = [0x00, 0x00, 0x00, 0x01]
      · rw [if_pos h4] at hfind
        obtain ⟨hs, he⟩ := Prod.mk.inj (Option.some.inj hfind)
        subst hs; subst he
        exact ⟨le_rfl, by omega, Or.inr ⟨rfl, h4.1⟩⟩
      · rw [if_neg h4] at hfind
        have := ih part (i + 1) s e hfind
        omega

/-- A found start code ends strictly after the scan offset and within the
buffer. -/
lemma findAvcStartCode_bounds (bytes : List Nat) (off s e : Nat)
    (hfind : findAvcStartCode bytes off = some (s, e)) : off < e ∧ e ≤ bytes.length := by
  unfold findAvcStartCode at hfind
  by_cases hlen : 3 ≤ (bytes.drop off).length
  · rw [if_pos hlen] at hfind
    obtain ⟨⟨s', e'⟩, hloop, heq⟩ := Option.map_eq_some'.mp hfind
    obtain ⟨hs, he⟩ := Prod.mk.inj heq
    have hspec := findLoop_spec ((bytes.drop off).length - 3) (bytes.drop off) 0 s' e' hloop
    have hdlen : (bytes.drop off).length = bytes.length - off := List.length_drop off bytes
    omega
  · rw [if_neg hlen] at hfind
    exact absurd hfind (by simp)

/-- The last SPS in a unit list, searched from the right, falling back to a
prior candidate: characterizes the repeated `sps = Some(nal)` overwrite. -/
lemma foldl_sps_overwrite :
    ∀ (l : List (List Nat)) (init : Option (List Nat)),
      l.foldl (fun acc u => if nalIsSps u then some u else acc) init =
        match l.reverse.find? (fun u => nalIsSps u) with
        | some u => some u
        | none => init := by
  intro l
  induction l with
  | nil => intro init; simp
  | cons u t ih =>
    intro init
    simp only [List.foldl_cons, List.reverse_cons]
    rw [ih]
    rcases hfind : t.reverse.find? (fun v => nalIsSps v) with _ | v
    · rw [List.find?_append, hfind]
      by_cases hu : nalIsSps u
      · simp [hu]
      · simp [hu, Bool.of_not_eq_true hu]
    · rw [List.find?_append, hfind]
      simp

/-- The Annex B loop equals the fold of the SPS-overwrite / PPS-append step
over the scanned units, provided no scanned unit is empty (an empty unit makes
the loop panic at `nal[0]`) and the fuel covers the buffer. -/
lemma annexbGo_eq_scan :
    ∀ fuel (bytes : List Nat) (index : Nat) (sps : Option (List Nat)) (pps : List (List Nat)),
      index ≤ bytes.length → bytes.length + 1 ≤ fuel + index →
      (∀ u ∈ scanGo bytes index fuel, u ≠ []) →
      annexbGo bytes index sps pps fuel =
        annexbFinalize
          ((scanGo bytes index fuel).foldl (fun acc u => if nalIsSps u then some u else acc) sps)
          (pps ++ (scanGo bytes index fuel).filter (fun u => nalIsPps u)) := by
  intro fuel
  induction fuel with
  | zero => intro bytes index sps pps hle hfuel hne; omega
  | succ n ih =>
    intro bytes index sps pps hle hfuel hne
    cases hstep : findAvcStartCode bytes index with
    | some p =>
      obtain ⟨s, e⟩ := p
      have hb := findAvcStartCode_bounds bytes index s e hstep
      have hmem : (bytes.drop index).take (s - index) ∈ scanGo bytes index (n + 1) := by
        simp [scanGo, hstep]
      obtain ⟨b, rest, hcons⟩ := List.exists_cons_of_ne_nil (hne _ hmem)
      have hih := ih bytes e
        (if b % 32 = 0x07 then some (b :: rest) else sps)
        (if b % 32 = 0x08 then pps ++ [b :: rest] else pps)
        hb.2 (by omega)
        (by
          intro u hu
          refine hne u ?_
          simp [scanGo, hstep]
          exact Or.inr hu)
      simp only [annexbGo, scanGo, hstep, hcons] at *
      rw [hih]
      by_cases h7 : b % 32 = 0x07
      · simp [h7, nalIsSps, nalIsPps, List.filter_cons]
      · by_cases h8 : b % 32 = 0x08
        · simp [h7, h8, nalIsSps, nalIsPps, List.filter_cons]
        · simp [h7, h8, nalIsSps, nalIsPps, List.filter_cons]
    | none =>
      have hmem : (bytes.drop index).take (bytes.length - index) ∈ scanGo bytes index (n + 1) := by
        simp [scanGo, hstep]
      obtain ⟨b, rest, hcons⟩ := List.exists_cons_of_ne_nil (hne _ hmem)
      simp only [annexbGo, scanGo, hstep, hcons]
      by_cases h7 : b % 32 = 0x07
      · simp [h7, nalIsSps, nalIsPps, annexbFinalize, List.filter_cons]
      · by_cases h8 : b % 32 = 0x08
        · cases sps with
          | none => simp [h7, h8, nalIsSps, nalIsPps, annexbFinalize, List.filter_cons]
          | some sp => simp [h7, h8, nalIsSps, nalIsPps, annexbFinalize, List.filter_cons]
        · cases sps with
          | none => simp [h7, h8, nalIsSps, nalIsPps, annexbFinalize, List.filter_cons]
          | some sp => simp [h7, h8, nalIsSps, nalIsPps, annexbFinalize, List.filter_cons]

/-! ## Lemmas about dimension fitting -/

/-- The scale factor is nonnegative while the loop bound is positive. -/
lemma fitScale_nonneg (ops : FloatOps) (hacc : ops.Accurate) (w h wMax hMax : ℕ)
    (hwM : 0 < wMax) (hhM : 0 < hMax) : 0 ≤ fitScale ops w h wMax hMax := by
  refine le_min (le_min ?_ ?_) (by norm_num)
  · exact hacc.div_nonneg _ _ (by exact_mod_cast hwM) (by positivity)
  · exact hacc.div_nonneg _ _ (by exact_mod_cast hhM) (by positivity)

/-- Multiplying an exact zero rounds to an exact zero. -/
lemma fmul_zero_left (ops : FloatOps) (hacc : ops.Accurate) (f : ℚ) (hf : 0 ≤ f) :
    ops.fmul 0 f = 0 := by
  have hle := hacc.mul_le 0 f le_rfl hf
  have hge := hacc.mul_ge 0 f le_rfl hf
  simp only [zero_mul] at hle hge
  linarith

/-- Rounding an exact zero and casting to `u32` yields zero. -/
lemma fround_zero (ops : FloatOps) (hacc : ops.Accurate) : ops.fround 0 = 0 := by
  have hr := hacc.round_le 0 le_rfl
  by_contra hne
  have h1 : 1 ≤ ops.fround 0 := Nat.one_le_iff_ne_zero.mpr hne
  have h1q : (1 : ℚ) ≤ (ops.fround 0 : ℚ) := by exact_mod_cast h1
  linarith

/-- A zero source width forces a zero rounded output width. -/
lemma fitOutW_of_zero (ops : FloatOps) (hacc : ops.Accurate) (h wMax hMax : ℕ)
    (hwM : 0 < wMax) (hhM : 0 < hMax) : fitOutW ops 0 h wMax hMax = 0 := by
  have hf : 0 ≤ fitScale ops 0 h wMax hMax := fitScale_nonneg ops hacc 0 h wMax hMax hwM hhM
  unfold fitOutW
  rw [Nat.cast_zero, fmul_zero_left ops hacc _ hf, fround_zero ops hacc]

/-- A zero source height forces a zero rounded output height. -/
lemma fitOutH_of_zero (ops : FloatOps) (hacc : ops.Accurate) (w wMax hMax : ℕ)
    (hwM : 0 < wMax) (hhM : 0 < hMax) : fitOutH ops w 0 wMax hMax = 0 := by
  have hf : 0 ≤ fitScale ops w 0 wMax hMax := fitScale_nonneg ops hacc w 0 wMax hMax hwM hhM
  unfold fitOutH
  rw [Nat.cast_zero, fmul_zero_left ops hacc _ hf, fround_zero ops hacc]

/-- Core numeric bound: scaling a positive dimension `d` by a factor at most
the (float) quotient `bound / d`, then rounding, cannot exceed `bound`, as
long as `bound ≤ 1000` so that the accumulated relative error stays below the
half that rounding can add. -/
lemma fround_mul_le (ops : FloatOps) (hacc : ops.Accurate) (d bound : ℕ) (f : ℚ)
    (hd : 0 < d) (hf0 : 0 ≤ f) (hb : 0 < bound) (hble : bound ≤ 1000)
    (hfle : f ≤ ops.fdiv (bound : ℚ) (d : ℚ)) :
    ops.fround (ops.fmul (d : ℚ) f) ≤ bound := by
  have hdq : (0 : ℚ) < (d : ℚ) := by exact_mod_cast hd
  have hbq : (0 : ℚ) < (bound : ℚ) := by exact_mod_cast hb
  have hbleq : (bound : ℚ) ≤ 1000 := by exact_mod_cast hble
  have heps0 : (0 : ℚ) ≤ feps := by norm_num [feps]
  have heps1 : (0 : ℚ) ≤ 1 - feps := by norm_num [feps]
  have hdle : ops.fdiv (bound : ℚ) (d : ℚ) ≤ (bound : ℚ) / (d : ℚ) * (1 + feps) :=
    hacc.div_le _ _ hbq hdq
  have hx0 : 0 ≤ ops.fmul (d : ℚ) f := by
    have hge := hacc.mul_ge (d : ℚ) f hdq.le hf0
    have : 0 ≤ (d : ℚ) * f * (1 - feps) :=
      mul_nonneg (mul_nonneg hdq.le hf0) heps1
    linarith
  have hxle : ops.fmul (d : ℚ) f ≤ (d : ℚ) * f * (1 + feps) :=
    hacc.mul_le _ _ hdq.le hf0
  have hdf : (d : ℚ) * ((bound : ℚ) / (d : ℚ)) = (bound : ℚ) := by
    field_simp
  have hwf : (d : ℚ) * f ≤ (bound : ℚ) * (1 + feps) := by
    have h1 : (d : ℚ) * f ≤ (d : ℚ) * ((bound : ℚ) / (d : ℚ) * (1 + feps)) :=
      mul_le_mul_of_nonneg_left (hfle.trans hdle) hdq.le
    calc (d : ℚ) * f ≤ (d : ℚ) * ((bound : ℚ) / (d : ℚ) * (1 + feps)) := h1
      _ = (d : ℚ) * ((bound : ℚ) / (d : ℚ)) * (1 + feps) := by ring
      _ = (bound : ℚ) * (1 + feps) := by rw [hdf]
  have hxle2 : ops.fmul (d : ℚ) f ≤ (bound : ℚ) * (1 + feps) * (1 + feps) := by
    calc ops.fmul (d : ℚ) f ≤ (d : ℚ) * f * (1 + feps) := hxle
      _ ≤ (bound : ℚ) * (1 + feps) * (1 + feps) :=
          mul_le_mul_of_nonneg_right hwf (by norm_num [feps])
  have hrle := hacc.round_le _ hx0
  have hfinal : (ops.fround (ops.fmul (d : ℚ) f) : ℚ) < (bound : ℚ) + 1 := by
    have hgap : (bound : ℚ) * (1 + feps) * (1 + feps) + 1 / 2 < (bound : ℚ) + 1 := by
      simp only [feps]
      nlinarith [hbleq]
    linarith
  have : ops.fround (ops.fmul (d : ℚ) f) < bound + 1 := by exact_mod_cast hfinal
  omega

/-- Loop invariant for `calculate_fit_dims_even`: whatever the fuel, a `Some`
result is even in both components, fits inside the current bound, and is
positive in both components. -/
lemma fitEvenLoop_some_spec (ops : FloatOps) (hacc : ops.Accurate) (w h : ℕ) :
    ∀ fuel wMax hMax ow oh : ℕ, wMax ≤ 1000 → hMax ≤ 1000 →
      fitEvenLoop ops w h wMax hMax fuel = some (ow, oh) →
      ow % 2 = 0 ∧ oh % 2 = 0 ∧ ow ≤ wMax ∧ oh ≤ hMax ∧ 0 < ow ∧ 0 < oh := by
  intro fuel
  induction fuel with
  | zero =>
    intro wMax hMax ow oh _ _ hsome
    simp [fitEvenLoop] at hsome
  | succ n ih =>
    intro wMax hMax ow oh hwM hhM hsome
    simp only [fitEvenLoop] at hsome
    by_cases hg : 0 < wMax ∧ 0 < hMax
    · rw [if_pos hg] at hsome
      by_cases hpos : 0 < fitOutW ops w h wMax hMax ∧ 0 < fitOutH ops w h wMax hMax
      · rw [if_pos hpos] at hsome
        by_cases heven : fitOutW ops w h wMax hMax % 2 = 0 ∧ fitOutH ops w h wMax hMax % 2 = 0
        · rw [if_pos heven] at hsome
          have hpair : (fitOutW ops w h wMax hMax, fitOutH ops w h wMax hMax) = (ow, oh) :=
            Option.some.inj hsome
          obtain ⟨how, hoh⟩ := Prod.mk.inj hpair
          subst how; subst hoh
          have hw : 0 < w := by
            by_contra hw0
            have : w = 0 := by omega
            subst this
            rw [fitOutW_of_zero ops hacc h wMax hMax hg.1 hg.2] at hpos
            exact absurd hpos.1 (by omega)
          have hh : 0 < h := by
            by_contra hh0
            have : h = 0 := by omega
            subst this
            rw [fitOutH_of_zero ops hacc w wMax hMax hg.1 hg.2] at hpos
            exact absurd hpos.2 (by omega)
          have hf0 : 0 ≤ fitScale ops w h wMax hMax :=
            fitScale_nonneg ops hacc w h wMax hMax hg.1 hg.2
          have hWle : fitOutW ops w h wMax hMax ≤ wMax := by
            apply fround_mul_le ops hacc w wMax _ hw hf0 hg.1 hwM
            exact le_trans (min_le_left _ _) (min_le_left _ _)
          have hHle : fitOutH ops w h wMax hMax ≤ hMax := by
            apply fround_mul_le ops hacc h hMax _ hh hf0 hg.2 hhM
            exact le_trans (min_le_left _ _) (min_le_right _ _)
          exact ⟨heven.1, heven.2, hWle, hHle, hpos.1, hpos.2⟩
        · rw [if_neg heven] at hsome
          by_cases hcmp : ops.fdiv (wMax : ℚ) (w : ℚ) < ops.fdiv (hMax : ℚ) (h : ℚ)
          · rw [if_pos hcmp] at hsome
            have hres := ih (wMax - 1) hMax ow oh (by omega) hhM hsome
            exact ⟨hres.1, hres.2.1, by omega, hres.2.2.2.1, hres.2.2.2.2.1, hres.2.2.2.2.2⟩
          · rw [if_neg hcmp] at hsome
            have hres := ih wMax (hMax - 1) ow oh hwM (by omega) hsome
            exact ⟨hres.1, hres.2.1, hres.2.2.1, by omega, hres.2.2.2.2.1, hres.2.2.2.2.2⟩
      · rw [if_neg hpos] at hsome
        exact absurd hsome (by simp)
    · rw [if_neg hg] at hsome
      exact absurd hsome (by simp)

/-- A zero source dimension or a zero bound makes `calculate_fit_dims_even`
give up with `None`, for any fuel. -/
lemma fitEvenLoop_zero_none (ops : FloatOps) (hacc : ops.Accurate)
    (w h wMax hMax fuel : ℕ) (hz : w = 0 ∨ h = 0 ∨ wMax = 0 ∨ hMax = 0) :
    fitEvenLoop ops w h wMax hMax fuel = none := by
  cases fuel with
  | zero => simp [fitEvenLoop]
  | succ n =>
    simp only [fitEvenLoop]
    by_cases hg : 0 < wMax ∧ 0 < hMax
    · rw [if_pos hg]
      have hnp : ¬(0 < fitOutW ops w h wMax hMax ∧ 0 < fitOutH ops w h wMax hMax) := by
        rcases hz with hw0 | hh0 | hz0 | hz0
        · subst hw0
          rw [fitOutW_of_zero ops hacc h wMax hMax hg.1 hg.2]
          omega
        · subst hh0
          rw [fitOutH_of_zero ops hacc w wMax hMax hg.1 hg.2]
          omega
        · exact absurd hg.1 (by omega)
        · exact absurd hg.2 (by omega)
      rw [if_neg hnp]
    · rw [if_neg hg]

/-- Rounding on `ℚ` lands within one half, and is nonnegative on nonnegative
input. -/
lemma round_toNat_bounds (x : ℚ) (hx : 0 ≤ x) :
    ((round x).toNat : ℚ) ≤ x + 1 / 2 ∧ x - 1 / 2 ≤ ((round x).toNat : ℚ) := by
  have habs := abs_sub_round x
  have h1 : (round x : ℚ) ≤ x + 1 / 2 := by
    have h := abs_le.mp habs
    linarith [h.1]
  have h2 : x - 1 / 2 ≤ (round x : ℚ) := by
    have h := abs_le.mp habs
    linarith [h.2]
  have h0 : 0 ≤ round x := by
    by_contra hneg
    push_neg at hneg
    have hle : round x ≤ -1 := by omega
    have : ((round x : ℤ) : ℚ) ≤ -1 := by exact_mod_cast hle
    linarith
  have hcast : (((round x).toNat : ℕ) : ℚ) = ((round x : ℤ) : ℚ) := by
    rw [← Int.toNat_of_nonneg h0]
    push_cast
    rw [Int.toNat_of_nonneg h0]
  constructor
  · rw [hcast]; exact h1
  · rw [hcast]; exact h2

/-- The exact rational operations satisfy all accuracy hypotheses. -/
lemma exactOps_accurate : exactOps.Accurate where
  div_nonneg := fun a b ha hb => div_nonneg ha.le hb
  div_le := fun a b ha hb =>
    le_mul_of_one_le_right (div_nonneg ha.le hb.le) (by norm_num [feps])
  mul_le := fun a b ha hb =>
    le_mul_of_one_le_right (mul_nonneg ha hb) (by norm_num [feps])
  mul_ge := fun a b ha hb =>
    mul_le_of_le_one_right (mul_nonneg ha hb) (by norm_num [feps])
  round_le := fun x hx => (round_toNat_bounds x hx).1
  round_ge := fun x hx => (round_toNat_bounds x hx).2

/-- `finish` on a state whose trailer flag is already set changes nothing and
returns success. -/
lemma encFinish_noop (eofOk : Bool) (resp : Nat → EngineResp) (st2 : EncoderSt)
    (hnt : st2.haveWrittenTrailer = true) : encFinish eofOk resp st2 = (st2, .ok ()) := by
  unfold encFinish
  rw [if_neg (by rw [hnt]; simp)]

/-! ## Helper lemmas about the drain loops -/


/-- The teardown drain loop performs at most `i + r` receive calls when
entered at attempt index `i` with budget `r`. -/
lemma dropDrainLoop_le (resp : Nat → DecodeResp) :
    ∀ r i, dropDrainLoop resp i r ≤ i + r := by
  intro r
  induction r with
  | zero => intro i; simp [dropDrainLoop]
  | succ n ih =>
    intro i
    simp only [dropDrainLoop]
    by_cases h : resp i = .err
    · rw [if_pos h]; omega
    · rw [if_neg h]
      have := ih (i + 1)
      omega

/-- The teardown drain loop stops right after the first erroring attempt. -/
lemma dropDrainLoop_first_err (resp : Nat → DecodeResp) :
    ∀ r i k, i ≤ k → k < i + r → resp k = .err → (∀ j, i ≤ j → j < k → resp j ≠ .err) →
      dropDrainLoop resp i r = k + 1 := by
  intro r
  induction r with
  | zero => intro i k h1 h2; omega
  | succ n ih =>
    intro i k h1 h2 hk hbefore
    simp only [dropDrainLoop]
    by_cases h : resp i = .err
    · have : i = k := by
        by_contra hne
        exact hbefore i le_rfl (by omega) h
      rw [if_pos h, this]
    · rw [if_neg h]
      have hik : i < k := by
        rcases Nat.eq_or_lt_of_le h1 with he | hl
        · exact absurd (he ▸ hk) h
        · exact hl
      exact ih (i + 1) k hik (by omega) hk (fun j hj1 hj2 => hbefore j (by omega) hj2)

/-- The flush drain loop performs at most `i + r` receive calls. -/
lemma flushLoop_count_le (resp : Nat → EngineResp) :
    ∀ r (st : EncoderSt) i, (flushLoop resp st i r).2 ≤ i + r := by
  intro r
  induction r with
  | zero => intro st i; simp [flushLoop]
  | succ n ih =>
    intro st i
    cases h : resp i with
    | pkt =>
      have := ih (encWrite st) (i + 1)
      simp only [flushLoop, h]
      omega
    | eagain =>
      have := ih st (i + 1)
      simp only [flushLoop, h]
      omega
    | err =>
      simp only [flushLoop, h]
      omega

/-- Flushing only writes packets: it never touches the header/trailer flags,
the ghost trailer counter, or the negotiated scaler dimensions. -/
lemma flushLoop_preserves (resp : Nat → EngineResp) :
    ∀ r (st : EncoderSt) i,
      (flushLoop resp st i r).1.haveWrittenHeader = st.haveWrittenHeader ∧
      (flushLoop resp st i r).1.haveWrittenTrailer = st.haveWrittenTrailer ∧
      (flushLoop resp st i r).1.trailerWrites = st.trailerWrites ∧
      (flushLoop resp st i r).1.headerWrites = st.headerWrites ∧
      (flushLoop resp st i r).1.scalerWidth = st.scalerWidth ∧
      (flushLoop resp st i r).1.scalerHeight = st.scalerHeight := by
  intro r
  induction r with
  | zero => intro st i; simp [flushLoop]
  | succ n ih =>
    intro st i
    cases h : resp i with
    | pkt =>
      simp only [flushLoop, h]
      simpa [encWrite] using ih (encWrite st) (i + 1)
    | eagain =>
      simp only [flushLoop, h]
      exact ih st (i + 1)
    | err =>
      simp only [flushLoop, h]
      simp

/-! ## The claims -/

/-- Claim C2: for every AVCC byte slice, an SPS length, PPS count or PPS
length reaching past the buffer is answered with `InvalidExtraData`, never an
out-of-bounds read or panic.  The code violates this for the SPS length: the
slice `&bytes[8..(8 + sps_size)]` has no bounds check, so the 9-byte blob with
SPS length field 10 panics (first conjunct); a truncated PPS length field, by
contrast, is caught and answered with `InvalidExtraData` (second conjunct). -/
theorem claim_C2_avcc_bounds :
    extractParameterSetsH264 [0x01, 0, 0, 0, 0, 0, 0x00, 0x0A, 0x00] = .panics ∧
    extractParameterSetsH264 [0x01, 0, 0, 0, 0, 0, 0x00, 0x01, 0x67, 0x02, 0x00] =
      .err .invalidExtraData := by decide

/-- Claim C3, counterexample: an Annex B blob with two SPS units.  The scan
sees both units, yet the extraction returns the second SPS — `sps =
Some(nal)` overwrites on every SPS — while the claim says the first is kept. -/
theorem claim_C3_counterexample :
    scanUnits [0x00, 0x00, 0x01, 0x67, 0xAA, 0x00, 0x00, 0x01, 0x67, 0xBB] =
      [[0x67, 0xAA], [0x67, 0xBB]] ∧
    extractParameterSetsH264 [0x00, 0x00, 0x01, 0x67, 0xAA, 0x00, 0x00, 0x01, 0x67, 0xBB] =
      .ok [0x67, 0xBB] [] ∧
    ([0x67, 0xBB] : List Nat) ≠ [0x67, 0xAA] := by decide

/-- Claim C3 as amended: on a start-code-delimited (Annex B) extradata slice
whose scanned units are all nonempty (two adjacent start codes would make
`nal[0]` panic), the extraction returns the last SPS unit found in scan order
together with all PPS units found in scan order, and `InvalidExtraData` when
no SPS unit is present. -/
theorem claim_C3_annexb_last_sps (bytes : List Nat)
    (hne : ∀ u ∈ scanUnits bytes, u ≠ []) :
    extractAnnexb bytes =
      match (scanUnits bytes).reverse.find? (fun u => nalIsSps u) with
      | some s => .ok s ((scanUnits bytes).filter fun u => nalIsPps u)
      | none => .err .invalidExtraData := by
  unfold extractAnnexb
  unfold scanUnits at hne ⊢
  cases hstep : findAvcStartCode bytes 0 with
  | none => simp [hstep]
  | some p =>
    obtain ⟨s, e⟩ := p
    simp only [hstep] at hne ⊢
    have hb := findAvcStartCode_bounds bytes 0 s e hstep
    rw [annexbGo_eq_scan (bytes.length + 1) bytes e none [] hb.2 (by omega) hne]
    rw [foldl_sps_overwrite]
    cases hfind : (scanGo bytes e (bytes.length + 1)).reverse.find? (fun u => nalIsSps u) with
    | none => simp [annexbFinalize, hfind]
    | some u => simp [annexbFinalize, hfind]

/-- Witness for the amended claim C3, at the two-SPS blob of the
counterexample: the hypothesis (no empty unit) holds there, and the theorem
instantiates. -/
theorem claim_C3_annexb_last_sps_witness :
    extractAnnexb [0x00, 0x00, 0x01, 0x67, 0xAA, 0x00, 0x00, 0x01, 0x67, 0xBB] =
      match (scanUnits [0x00, 0x00, 0x01, 0x67, 0xAA, 0x00, 0x00, 0x01, 0x67,
          0xBB]).reverse.find? (fun u => nalIsSps u) with
      | some s => .ok s ((scanUnits [0x00, 0x00, 0x01, 0x67, 0xAA, 0x00, 0x00, 0x01, 0x67,
          0xBB]).filter fun u => nalIsPps u)
      | none => .err .invalidExtraData :=
  claim_C3_annexb_last_sps _ (by decide)

/-- Claim C5: a `Time` with no tick value has `has_value() = false`,
`as_secs()` and `as_secs_f64()` return `0.0`, it converts to the zero
wall-clock duration, and aligning it with any other `Time` and then adding or
subtracting yields a `Time` whose tick value is again absent. -/
theorem claim_C5_absent_time (tb : Rational) :
    (Time.new none tb).hasValue = false ∧
    (Time.new none tb).asSecs = 0.0 ∧
    (Time.new none tb).asSecsF64 = 0.0 ∧
    (Time.new none tb).toDurationSecs = 0.0 ∧
    (∀ rhs : Time, ((Time.new none tb).alignedWith rhs).add.time = none ∧
      ((Time.new none tb).alignedWith rhs).subtract.time = none) := by
  refine ⟨rfl, rfl, rfl, rfl, fun rhs => ⟨?_, ?_⟩⟩
  · cases h : rhs.time <;>
      simp [Time.alignedWith, Aligned.add, Aligned.apply, Time.new, h]
  · cases h : rhs.time <;>
      simp [Time.alignedWith, Aligned.subtract, Aligned.apply, Time.new, h]

/-- Witness for claim C5 at the 90 kHz time base and a concrete partner. -/
theorem claim_C5_absent_time_witness :
    (Time.new none ⟨1, 90000⟩).hasValue = false ∧
    (Time.new none ⟨1, 90000⟩).asSecs = 0.0 ∧
    (Time.new none ⟨1, 90000⟩).asSecsF64 = 0.0 ∧
    (Time.new none ⟨1, 90000⟩).toDurationSecs = 0.0 ∧
    (∀ rhs : Time, ((Time.new none ⟨1, 90000⟩).alignedWith rhs).add.time = none ∧
      ((Time.new none ⟨1, 90000⟩).alignedWith rhs).subtract.time = none) :=
  claim_C5_absent_time ⟨1, 90000⟩

/-- Claim C6: `aligned_with` rescales the right-hand tick count into the
left-hand time base by exact rational arithmetic rounded to nearest; in
particular `Time::from_units(3,16).aligned_with(Time::from_units(1,8))` holds
ticks 3 and 2 in the 1/16 base (`1 * 1 * 16 / (8 * 1) = 2`). -/
theorem claim_C6_aligned_with :
    (Time.fromUnits 3 16).alignedWith (Time.fromUnits 1 8) = ⟨some 3, some 2, ⟨1, 16⟩⟩ ∧
    rescaleTicks 1 ⟨1, 8⟩ ⟨1, 16⟩ = 2 := by decide

/-- Claim C8: an RTP-muxer output buffer is classified as RTCP exactly when it
is at least two bytes long and its byte at offset 1 equals 200; every other
buffer, including every buffer shorter than two bytes, is classified RTP. -/
theorem claim_C8_rtcp_classification (buf : List Nat) :
    (rtpBufOfBuf buf = .rtcp buf ↔ 2 ≤ buf.length ∧ buf.getD 1 0 = 200) ∧
    (rtpBufOfBuf buf = .rtcp buf ∨ rtpBufOfBuf buf = .rtp buf) ∧
    (buf.length < 2 → rtpBufOfBuf buf = .rtp buf) := by
  unfold rtpBufOfBuf
  by_cases h2 : 2 ≤ buf.length
  · by_cases h200 : buf.getD 1 0 = 200
    · rw [if_pos h2, if_pos h200]
      exact ⟨⟨fun _ => ⟨h2, h200⟩, fun _ => rfl⟩, Or.inl rfl, fun hlt => absurd h2 (by omega)⟩
    · rw [if_pos h2, if_neg h200]
      exact ⟨⟨fun hc => absurd hc (by simp), fun hc => absurd hc.2 h200⟩, Or.inr rfl,
        fun hlt => absurd h2 (by omega)⟩
  · rw [if_neg h2]
    exact ⟨⟨fun hc => absurd hc (by simp), fun hc => absurd hc.1 h2⟩, Or.inr rfl, fun _ => rfl⟩

/-- Claim C1, counterexample: a muxer whose header is written receives two
`finish()` calls; the first succeeds, the second also reports success, and
after the pair of calls the container trailer has been handed to the backend
twice, not exactly once — `Muxer::finish` simply forwards to
`writer.write_trailer()` with no written-trailer flag. -/
theorem claim_C1_counterexample :
    (muxFinish ⟨true, 0⟩).2 = .ok () ∧
    (muxFinish (muxFinish ⟨true, 0⟩).1).2 = .ok () ∧
    ((muxFinish (muxFinish ⟨true, 0⟩).1).1).trailerWrites = 2 := by decide

/-- Claim C1 as amended: on an `Encoder` that has written its header and not
yet its trailer, `finish()` (with the end-of-stream signal succeeding) writes
the trailer exactly once and a repeated `finish()` is a no-op returning
success with the state untouched; on a `Muxer`, by contrast, every `finish()`
call invokes the writer's trailer write once — there is no idempotency
guard. -/
theorem claim_C1_finish_idempotency (st : EncoderSt) (resp : Nat → EngineResp)
    (hh : st.haveWrittenHeader = true) (ht : st.haveWrittenTrailer = false) :
    ((encFinish true resp st).2 = .ok () ∧
      (encFinish true resp st).1.trailerWrites = st.trailerWrites + 1 ∧
      (encFinish true resp (encFinish true resp st).1).1 = (encFinish true resp st).1 ∧
      (encFinish true resp (encFinish true resp st).1).2 = .ok ()) ∧
    (∀ m : MuxerSt, (muxFinish m).1.trailerWrites = m.trailerWrites + 1 ∧
      (muxFinish m).2 = .ok ()) := by
  obtain ⟨hph, hpt, hpw, hphw, hpsw, hpsh⟩ :=
    flushLoop_preserves resp MAX_DRAIN_ITERATIONS { st with haveWrittenTrailer := true } 0
  have hc : st.haveWrittenHeader = true ∧ ¬(st.haveWrittenTrailer = true) := by
    rw [hh, ht]; simp
  have hrun : encFinish true resp st =
      ({ (flushLoop resp { st with haveWrittenTrailer := true } 0 MAX_DRAIN_ITERATIONS).1 with
          trailerWrites := (flushLoop resp { st with haveWrittenTrailer := true } 0
            MAX_DRAIN_ITERATIONS).1.trailerWrites + 1 }, .ok ()) := by
    unfold encFinish
    rw [if_pos hc]
    rfl
  have hrun2 : encFinish true resp (encFinish true resp st).1 =
      ((encFinish true resp st).1, .ok ()) := by
    apply encFinish_noop
    rw [hrun]
    exact hpt
  refine ⟨⟨?_, ?_, ?_, ?_⟩, fun m => ⟨rfl, rfl⟩⟩
  · rw [hrun]
  · rw [hrun]
    simpa using hpw
  · rw [hrun2]
  · rw [hrun2]

/-- Witness for the amended claim C1 at a concrete encoder state whose header
is written, with an engine that has nothing left to drain. -/
theorem claim_C1_finish_idempotency_witness :
    ((encFinish true (fun _ => .eagain) ⟨640, 480, 0, true, false, 1, 0, 0⟩).2 = .ok () ∧
      (encFinish true (fun _ => .eagain)
          ⟨640, 480, 0, true, false, 1, 0, 0⟩).1.trailerWrites = 0 + 1 ∧
      (encFinish true (fun _ => .eagain)
          (encFinish true (fun _ => .eagain) ⟨640, 480, 0, true, false, 1, 0, 0⟩).1).1 =
        (encFinish true (fun _ => .eagain) ⟨640, 480, 0, true, false, 1, 0, 0⟩).1 ∧
      (encFinish true (fun _ => .eagain)
          (encFinish true (fun _ => .eagain) ⟨640, 480, 0, true, false, 1, 0, 0⟩).1).2 =
        .ok ()) ∧
    (∀ m : MuxerSt, (muxFinish m).1.trailerWrites = m.trailerWrites + 1 ∧
      (muxFinish m).2 = .ok ()) :=
  claim_C1_finish_idempotency ⟨640, 480, 0, true, false, 1, 0, 0⟩ (fun _ => .eagain) rfl rfl

/-- Claim C4, counterexample: the key-frame decision reads `frame_count`,
which `Encoder::write` increments only when a packet is actually produced and
written.  With an engine that answers `EAGAIN` on the first frame (a response
the drain protocol allows), the frame fed at index 1 — counting from zero —
is also marked as a forced key (I) frame, although `1 % 12 ≠ 0`; the claim's
"exactly when i is a multiple of 12" is false. -/
theorem claim_C4_counterexample :
    (encodeRaw ⟨640, 480, 0, false, false, 0, 0, 0⟩ ⟨640, 480, 2⟩ .eagain).result = .ok () ∧
    (encodeRaw ⟨640, 480, 0, false, false, 0, 0, 0⟩ ⟨640, 480, 2⟩ .eagain).keyed = some true ∧
    (encodeRaw (encodeRaw ⟨640, 480, 0, false, false, 0, 0, 0⟩ ⟨640, 480, 2⟩ .eagain).state
        ⟨640, 480, 2⟩ .pkt).keyed = some true ∧
    ¬(1 % KEY_FRAME_INTERVAL = 0) := by decide

/-- Claim C4 as amended: a correctly formatted frame fed to `encode_raw` is
marked as a forced key (I) frame exactly when the encoder's `frame_count` —
the number of packets written so far, incremented once per packet written —
is a multiple of `KEY_FRAME_INTERVAL` (12) at the time of the call,
independent of frame content; when the engine emits exactly one packet per
fed frame this coincides with every twelfth frame fed. -/
theorem claim_C4_key_interval (st : EncoderSt) (frame : RawFrame) (resp : EngineResp)
    (hw : frame.width = st.scalerWidth) (hht : frame.height = st.scalerHeight)
    (hf : frame.format = FRAME_PIXEL_FORMAT) :
    (encodeRaw st frame resp).keyed = some (st.frameCount % KEY_FRAME_INTERVAL == 0) ∧
    (encodeRaw st frame resp).state.frameCount =
      st.frameCount + (if resp = .pkt then 1 else 0) := by
  have hcond : ¬(frame.width ≠ st.scalerWidth ∨ frame.height ≠ st.scalerHeight ∨
      frame.format ≠ FRAME_PIXEL_FORMAT) := by
    simp [hw, hht, hf]
  by_cases hhd : st.haveWrittenHeader <;>
    cases resp <;> simp [encodeRaw, hcond, hhd, encWrite]

/-- Witness for the amended claim C4: at packet-per-frame synchrony the very
first frame (counter 0) is marked and the counter advances by one. -/
theorem claim_C4_key_interval_witness :
    ((encodeRaw ⟨640, 480, 0, false, false, 0, 0, 0⟩ ⟨640, 480, 2⟩ .pkt).keyed =
      some (0 % KEY_FRAME_INTERVAL == 0) ∧
    (encodeRaw ⟨640, 480, 0, false, false, 0, 0, 0⟩ ⟨640, 480, 2⟩ .pkt).state.frameCount =
      0 + (if EngineResp.pkt = .pkt then 1 else 0)) :=
  claim_C4_key_interval ⟨640, 480, 0, false, false, 0, 0, 0⟩ ⟨640, 480, 2⟩ .pkt rfl rfl rfl

/-- Claim C7: for source dimensions and bounds from the spec's test grid, a
`Some` result of `Resize::FitEven(bw,bh).compute_for((w,h))` is even in both
components, fits within the bound, and is positive in both components; a zero
source dimension or zero bound yields `None`.  Proved for every float
implementation satisfying the binary32 accuracy facts `FloatOps.Accurate`. -/
theorem claim_C7_fit_even_grid (ops : FloatOps) (hacc : ops.Accurate) (w h bw bh : Nat)
    (_hw : w ∈ gridDims) (_hh : h ∈ gridDims) (hbw : bw ∈ gridDims) (hbh : bh ∈ gridDims) :
    (∀ ow oh : Nat, (Resize.fitEven bw bh).computeFor ops (w, h) = some (ow, oh) →
        ow % 2 = 0 ∧ oh % 2 = 0 ∧ ow ≤ bw ∧ oh ≤ bh ∧ 0 < ow ∧ 0 < oh) ∧
    ((w = 0 ∨ h = 0 ∨ bw = 0 ∨ bh = 0) →
      (Resize.fitEven bw bh).computeFor ops (w, h) = none) := by
  have hle : ∀ x ∈ gridDims, x ≤ 1000 := by decide
  constructor
  · intro ow oh hsome
    exact fitEvenLoop_some_spec ops hacc w h (bw + bh + 1) bw bh ow oh
      (hle bw hbw) (hle bh hbh) hsome
  · intro hz
    exact fitEvenLoop_zero_none ops hacc w h bw bh (bw + bh + 1) hz

/-- Witness for claim C7, instantiating the abstract float operations with
exact rational arithmetic at the grid point `(111, 256)` against bound
`(8, 8)`. -/
theorem claim_C7_fit_even_grid_witness :
    ((∀ ow oh : Nat, (Resize.fitEven 8 8).computeFor exactOps (111, 256) = some (ow, oh) →
        ow % 2 = 0 ∧ oh % 2 = 0 ∧ ow ≤ 8 ∧ oh ≤ 8 ∧ 0 < ow ∧ 0 < oh) ∧
    ((111 = 0 ∨ 256 = 0 ∨ 8 = 0 ∨ 8 = 0) →
      (Resize.fitEven 8 8).computeFor exactOps (111, 256) = none)) :=
  claim_C7_fit_even_grid exactOps exactOps_accurate 111 256 8 8
    (by decide) (by decide) (by decide) (by decide)

/-- Claim C9: the decoder-teardown drain loop and the encoder-flush drain loop
both perform at most `MAX_DRAIN_ITERATIONS` (100) receive attempts before
giving up; in the teardown path, the first erroring attempt stops the loop at
once (attempt count `k + 1`), and nothing is propagated — the teardown
returns only its attempt count, and a flush whose end-of-stream signal
succeeded never reports an error, whatever the drain responses. -/
theorem claim_C9_drain_bounds :
    (∀ (eofOk : Bool) (resp : Nat → DecodeResp),
      decoderDropAttempts eofOk resp ≤ MAX_DRAIN_ITERATIONS) ∧
    (∀ (resp : Nat → EngineResp) (st : EncoderSt),
      (flushLoop resp st 0 MAX_DRAIN_ITERATIONS).2 ≤ MAX_DRAIN_ITERATIONS) ∧
    (∀ (resp : Nat → DecodeResp) (k : Nat), k < MAX_DRAIN_ITERATIONS → resp k = .err →
      (∀ j, j < k → resp j ≠ .err) → decoderDropAttempts true resp = k + 1) ∧
    (∀ (resp : Nat → EngineResp) (st : EncoderSt) (e : Err),
      encFlush true resp st ≠ .error e) := by
  refine ⟨fun eofOk resp => ?_, fun resp st => ?_, fun resp k hk hke hbefore => ?_,
    fun resp st e => ?_⟩
  · cases eofOk with
    | false => simp [decoderDropAttempts]
    | true =>
      have := dropDrainLoop_le resp MAX_DRAIN_ITERATIONS 0
      simpa [decoderDropAttempts] using this
  · have := flushLoop_count_le resp MAX_DRAIN_ITERATIONS st 0
    simpa using this
  · have := dropDrainLoop_first_err resp MAX_DRAIN_ITERATIONS 0 k (Nat.zero_le k)
      (by omega) hke (fun j _ hj => hbefore j hj)
    simpa [decoderDropAttempts] using this
  · simp [encFlush]

/-- Witness for claim C9 at a drain sequence erroring on its fourth attempt:
teardown stops after exactly four receive calls. -/
theorem claim_C9_drain_bounds_witness :
    decoderDropAttempts true (fun i => if i = 3 then .err else .empty) = 3 + 1 :=
  claim_C9_drain_bounds.2.2.1 (fun i => if i = 3 then .err else .empty) 3
    (by decide) (by decide) (by decide)

/-- Claim C10: a frame whose width, height or pixel format does not match the
negotiated encoder settings is rejected by `encode_raw` (and the `ndarray`
`encode` front end) with `InvalidFrameFormat` before the lazy header write and
before any other state mutation — the state after the rejected call is
exactly the state before it, ghost header-write counter included — and the
encoder then still accepts a correctly formatted frame. -/
theorem claim_C10_reject_before_mutation (st : EncoderSt) (frame : RawFrame)
    (resp : EngineResp)
    (hbad : frame.width ≠ st.scalerWidth ∨ frame.height ≠ st.scalerHeight ∨
      frame.format ≠ FRAME_PIXEL_FORMAT) :
    encodeRaw st frame resp = ⟨st, .error .invalidFrameFormat, none⟩ ∧
    (∀ hgt wid c : Nat, (hgt ≠ st.scalerHeight ∨ wid ≠ st.scalerWidth ∨ c ≠ 3) →
      encode st hgt wid c resp = ⟨st, .error .invalidFrameFormat, none⟩) ∧
    (∀ (good : RawFrame) (r2 : EngineResp), good.width = st.scalerWidth →
      good.height = st.scalerHeight → good.format = FRAME_PIXEL_FORMAT → r2 ≠ .err →
      (encodeRaw (encodeRaw st frame resp).state good r2).result = .ok ()) := by
  have hfirst : encodeRaw st frame resp = ⟨st, .error .invalidFrameFormat, none⟩ := by
    unfold encodeRaw
    rw [if_pos hbad]
  refine ⟨hfirst, fun hgt wid c hbadnd => ?_, fun good r2 hgw hgh hgf hr2 => ?_⟩
  · unfold encode
    rw [if_pos hbadnd]
  · rw [hfirst]
    have hcond : ¬(good.width ≠ st.scalerWidth ∨ good.height ≠ st.scalerHeight ∨
        good.format ≠ FRAME_PIXEL_FORMAT) := by
      simp [hgw, hgh, hgf]
    cases r2 with
    | pkt => simp [encodeRaw, hcond]
    | eagain => simp [encodeRaw, hcond]
    | err => exact absurd rfl hr2

/-- Witness for claim C10: a 100×100 frame offered to a 640×480 encoder is
rejected, the state survives untouched, and a matching frame still encodes. -/
theorem claim_C10_reject_before_mutation_witness :
    encodeRaw ⟨640, 480, 5, false, false, 0, 0, 0⟩ ⟨100, 100, 2⟩ .eagain =
      ⟨⟨640, 480, 5, false, false, 0, 0, 0⟩, .error .invalidFrameFormat, none⟩ ∧
    (∀ hgt wid c : Nat, (hgt ≠ 480 ∨ wid ≠ 640 ∨ c ≠ 3) →
      encode ⟨640, 480, 5, false, false, 0, 0, 0⟩ hgt wid c .eagain =
        ⟨⟨640, 480, 5, false, false, 0, 0, 0⟩, .error .invalidFrameFormat, none⟩) ∧
    (∀ (good : RawFrame) (r2 : EngineResp), good.width = 640 → good.height = 480 →
      good.format = FRAME_PIXEL_FORMAT → r2 ≠ .err →
      (encodeRaw (encodeRaw ⟨640, 480, 5, false, false, 0, 0, 0⟩
          ⟨100, 100, 2⟩ .eagain).state good r2).result = .ok ()) :=
  claim_C10_reject_before_mutation ⟨640, 480, 5, false, false, 0, 0, 0⟩ ⟨100, 100, 2⟩
    .eagain (by decide)

/-- Witness for claim C8 at a two-byte RTCP sender report header. -/
theorem claim_C8_rtcp_classification_witness :
    (rtpBufOfBuf [0x80, 200] = .rtcp [0x80, 200] ↔
      2 ≤ ([0x80, 200] : List Nat).length ∧ ([0x80, 200] : List Nat).getD 1 0 = 200) ∧
    (rtpBufOfBuf [0x80, 200] = .rtcp [0x80, 200] ∨
      rtpBufOfBuf [0x80, 200] = .rtp [0x80, 200]) ∧
    (([0x80, 200] : List Nat).length < 2 → rtpBufOfBuf [0x80, 200] = .rtp [0x80, 200]) :=
  claim_C8_rtcp_classification [0x80, 200]

end VideoRs
